import Mathlib

/-!
Verification of the gene transformation and concatenation engine of the
`concatenator` library: stop-codon detection across reading frames
(`library/codons.py`), the gene model and `GeneDataFrame` joining
(`library/model.py`), the stream operators (`library/operators.py`) and the
charset / codon-partition types (`library/types.py`).

Sequences are embedded as `List Char`; codons and regex alternation patterns
as `List Char` of length 3.  Python `%` on possibly-negative ints is embedded
as `Int.emod`, which has the same nonnegative-result convention.  Exceptions
are embedded as `Except` results.
-/

namespace Concat

/-- `str.upper`-style folding used to embed `regex.IGNORECASE` matching. -/
def upper (s : List Char) : List Char := s.map Char.toUpper

/-- The three-character window of `s` starting at offset `i`
(the candidate regex match `s[i:i+3]`). -/
def sub3 (s : List Char) (i : Nat) : List Char := (s.drop i).take 3

/-- Case-insensitive membership of the window `w` in the alternation
pattern list `pats` (embeds matching of `regex.compile("|".join(pats),
regex.IGNORECASE)` at one position). -/
def ciMemb (pats : List (List Char)) (w : List Char) : Bool :=
  pats.any (fun p => upper p == upper w)

/-- `codons.detect_stop_codons`: forward-sense stop codons of `sequence`
with their reading frame `start % 3 + 1`; a match with
`sequence_length - start < 6` is skipped.  The yielded codon is the matched
text itself (original case). -/
def detect_stop_codons (s : List Char) (stop_codons : List (List Char)) :
    List (List Char × Int) :=
  (List.range s.length).filterMap fun i =>
    if ciMemb stop_codons (sub3 s i) ∧ i + 3 ≤ s.length ∧ i + 6 ≤ s.length then
      some (sub3 s i, ((i % 3 : Nat) : Int) + 1)
    else
      none

/-- `codons.detect_reverse_stop_codons`: scans for the per-character-reversed
codon forms (`codon[::-1]`), skips matches with `start < 3`, yields the
re-reversed matched text with frame `-((seq_len - end - 1) % 3 + 1)`
(Python `%` on a possibly negative dividend, hence `Int.emod`). -/
def detect_reverse_stop_codons (s : List Char) (stop_codons : List (List Char)) :
    List (List Char × Int) :=
  (List.range s.length).filterMap fun i =>
    if ciMemb (stop_codons.map List.reverse) (sub3 s i) ∧ i + 3 ≤ s.length ∧ 3 ≤ i then
      some ((sub3 s i).reverse, -(((s.length : Int) - ((i : Int) + 3) - 1).emod 3 + 1))
    else
      none

/-- `utils.reverse_complement`: reverse the string, then complement
`ACGTacgt -> TGCAtgca` (all other characters unchanged). -/
def complementChar (c : Char) : Char :=
  if c = 'A' then 'T'
  else if c = 'C' then 'G'
  else if c = 'G' then 'C'
  else if c = 'T' then 'A'
  else if c = 'a' then 't'
  else if c = 'c' then 'g'
  else if c = 'g' then 'c'
  else if c = 't' then 'a'
  else c

def reverse_complement (s : List Char) : List Char :=
  s.reverse.map complementChar

end Concat

namespace Concat

/-- The genetic-code tables: table id ↦ its stop codons.  This embeds the
`GeneticCode` enumeration of `codons.py`, whose concrete table data is loaded
at startup from the `genetic_codes.json` resource; the development is
therefore parameterized by the table assignment.  `GeneticCode.Unknown`
(id 0) is not an entry: `TABLE_SET` excludes it. -/
abbrev TableMap := List (Nat × List (List Char))

/-- `TABLE_SET`: the ids of all (non-Unknown) tables. -/
def tableIds (tables : TableMap) : List Nat := tables.map Prod.fst

/-- `GeneticCode(id).stops` (`[]` for an id without a table, as for
`GeneticCode.Unknown`). -/
def stopsOf (tables : TableMap) (gcId : Nat) : List (List Char) :=
  (tables.lookup gcId).getD []

/-- `STOP_CODONS_SET`: every stop codon of every table, used as the
alternation pattern set in unknown-code detection. -/
def STOP_CODONS_SET (tables : TableMap) : List (List Char) :=
  (tables.map Prod.snd).flatten

/-- `STOP_CODONS[codon]`: the set of tables for which `codon` is a stop
codon.  `collect_stop_codons` builds a `DefaultDict(set)`, so an unknown
codon (e.g. a lower-case detected match) yields the empty set. -/
def tablesOf (tables : TableMap) (codon : List Char) : List Nat :=
  tables.filterMap (fun p => if codon ∈ p.2 then some p.1 else none)

/-- The combined stop detections
`set(chain(detect_stop_codons(...), detect_reverse_stop_codons(...)))`
(as a list; set semantics are recovered through membership or `dedup`). -/
def detected (s : List Char) (pats : List (List Char)) : List (List Char × Int) :=
  detect_stop_codons s pats ++ detect_reverse_stop_codons s pats

/-- `codons.allowed_translations` at one frame: start from the full
`TABLE_SET` and remove, for every detected stop in this frame, every table
for which that codon is a stop codon. -/
def allowed_translations (tables : TableMap) (stops : List (List Char × Int))
    (frame : Int) : List Nat :=
  (tableIds tables).filter
    (fun t => ! stops.any (fun p => p.2 == frame && decide (t ∈ tablesOf tables p.1)))

/-- Frame iteration order of the fixed-code branch (`[1, 2, 3, -1, -2, -3]`). -/
def sixFramesFixed : List Int := [1, 2, 3, -1, -2, -3]

/-- Frame iteration order of `allowed_translations`' result dictionary. -/
def sixFramesDict : List Int := [-3, -2, -1, 1, 2, 3]

/-- `codons.detect_reading_combinations`.  With a fixed genetic code
(`gcId ≠ 0`), a frame is *disallowed* exactly when the number of distinct
detected stops in it is one (`Counter(...)... if count == 1`); with unknown
code, the surviving `(table, frame)` pairs of `allowed_translations`. -/
def detect_reading_combinations (tables : TableMap) (gcId : Nat) (s : List Char) :
    List (Nat × Int) :=
  if gcId ≠ 0 then
    let stops := (detected s (stopsOf tables gcId)).dedup
    sixFramesFixed.filterMap (fun f =>
      if (stops.filter (fun p => p.2 == f)).length = 1 then none else some (gcId, f))
  else
    let stops := detected s (STOP_CODONS_SET tables)
    sixFramesDict.flatMap (fun f => (allowed_translations tables stops f).map (fun t => (t, f)))

/-- The number of distinct detected mid-sequence stops of the fixed code
`gcId` in frame `f` of sequence `s`. -/
def distinctStopCount (tables : TableMap) (gcId : Nat) (s : List Char) (f : Int) : Nat :=
  (((detected s (stopsOf tables gcId)).dedup).filter (fun p => p.2 == f)).length

end Concat

namespace Concat

/-- C1.  The claim states that reverse-sense detection agrees with
forward-sense detection on the reverse complement (frames negated,
end-of-sequence windows included).  The code instead scans the
per-character-reversed codon forms and uses an end-based frame formula, so
the two sides disagree: on `"AAAAATAAA"` with stop set `{TAA}`, reverse
detection reports the stop `TAA` in frame `-3`, while forward detection on
the reverse complement `"TTTATTTTT"` reports nothing at all (in particular
nothing in frame `+3`). -/
theorem c1_reverse_forward_disagree :
    detect_reverse_stop_codons ("AAAAATAAA".toList) [("TAA".toList)]
      = [(("TAA".toList), -3)]
    ∧ detect_stop_codons (reverse_complement ("AAAAATAAA".toList)) [("TAA".toList)]
      = []
    ∧ (("TAA".toList), (-3 : Int)) ∈
        detect_reverse_stop_codons ("AAAAATAAA".toList) [("TAA".toList)]
    ∧ (("TAA".toList), (3 : Int)) ∉
        detect_stop_codons (reverse_complement ("AAAAATAAA".toList)) [("TAA".toList)] := by
  refine ⟨by decide, by decide, by decide, by decide⟩

/-- C5, counterexample.  The claim states that, for a fixed genetic code,
a frame survives iff no mid-sequence stop of that code is detected in it.
On `"TAACCCTAGCCC"` with a table `7` whose stops are `{TAA, TAG}`, two
distinct stops are detected in frame `1` (`TAA` and `TAG`), yet the pair
`(7, 1)` still survives detection: with two distinct stops the
`count == 1` removal rule does not fire. -/
theorem c5_fixed_code_counterexample :
    (("TAA".toList), (1 : Int)) ∈
      detected ("TAACCCTAGCCC".toList) (stopsOf [(7, [("TAA".toList), ("TAG".toList)])] 7)
    ∧ (("TAG".toList), (1 : Int)) ∈
      detected ("TAACCCTAGCCC".toList) (stopsOf [(7, [("TAA".toList), ("TAG".toList)])] 7)
    ∧ ((7, 1) : Nat × Int) ∈
      detect_reading_combinations [(7, [("TAA".toList), ("TAG".toList)])] 7
        ("TAACCCTAGCCC".toList) := by
  refine ⟨by decide, by decide, by decide⟩

/-- C5, amended.  For a fixed genetic code, a frame survives per-sequence
detection if and only if the number of *distinct* detected mid-sequence
stop codons of that code in that frame is not exactly one: a single
detected stop eliminates the frame, but zero, or two or more distinct,
detected stops leave it surviving. -/
theorem c5_fixed_code_amended (tables : TableMap) (gcId : Nat) (s : List Char)
    (f : Int) (hgc : gcId ≠ 0) :
    ((gcId, f) ∈ detect_reading_combinations tables gcId s
      ↔ (f ∈ sixFramesFixed ∧ distinctStopCount tables gcId s f ≠ 1)) := by
  simp only [detect_reading_combinations, if_pos hgc, List.mem_filterMap,
    distinctStopCount]
  constructor
  · rintro ⟨f', hf', h⟩
    by_cases hc :
        (((detected s (stopsOf tables gcId)).dedup).filter (fun p => p.2 == f')).length = 1
    · simp [hc] at h
    · simp only [if_neg hc, Option.some.injEq, Prod.mk.injEq] at h
      exact ⟨h.2 ▸ hf', h.2 ▸ hc⟩
  · rintro ⟨hf, hc⟩
    exact ⟨f, hf, by simp [hc]⟩

/-- C5, witness for the amended theorem: on `"TAACCCTAGCCC"` with the
two-stop table `7`, frame `1` has two distinct detected stops, hence
survives. -/
theorem c5_fixed_code_witness :
    ((7 : Nat) ≠ 0)
    ∧ ((7, 1) : Nat × Int) ∈
        detect_reading_combinations [(7, [("TAA".toList), ("TAG".toList)])] 7
          ("TAACCCTAGCCC".toList) :=
  ⟨by decide,
    (c5_fixed_code_amended [(7, [("TAA".toList), ("TAG".toList)])] 7
      ("TAACCCTAGCCC".toList) 1 (by decide)).mpr (by decide)⟩

/-- Every codon reported by forward detection is a three-character window of
the sequence itself. -/
theorem mem_detect_stop_codons {s : List Char} {pats : List (List Char)}
    {c : List Char} {f : Int} (h : (c, f) ∈ detect_stop_codons s pats) :
    ∃ i, i < s.length ∧ c = sub3 s i := by
  simp only [detect_stop_codons, List.mem_filterMap, List.mem_range] at h
  obtain ⟨i, hilt, hi⟩ := h
  refine ⟨i, hilt, ?_⟩
  by_cases hc : ciMemb pats (sub3 s i) ∧ i + 3 ≤ s.length ∧ i + 6 ≤ s.length
  · rw [if_pos hc, Option.some.injEq, Prod.mk.injEq] at hi
    exact hi.1.symm
  · rw [if_neg hc] at hi
    exact absurd hi (by simp)

/-- Every codon reported by reverse detection is the reversal of a
three-character window of the sequence itself. -/
theorem mem_detect_reverse_stop_codons {s : List Char} {pats : List (List Char)}
    {c : List Char} {f : Int} (h : (c, f) ∈ detect_reverse_stop_codons s pats) :
    ∃ i, i < s.length ∧ c = (sub3 s i).reverse := by
  simp only [detect_reverse_stop_codons, List.mem_filterMap, List.mem_range] at h
  obtain ⟨i, hilt, hi⟩ := h
  refine ⟨i, hilt, ?_⟩
  by_cases hc : ciMemb (pats.map List.reverse) (sub3 s i) ∧ i + 3 ≤ s.length ∧ 3 ≤ i
  · rw [if_pos hc, Option.some.injEq, Prod.mk.injEq] at hi
    exact hi.1.symm
  · rw [if_neg hc] at hi
    exact absurd hi (by simp)

/-- C8, counterexample.  The claim states that a sequence containing no stop
codon of a table (case-insensitively) keeps that table in *every* frame's
surviving set.  `"CCCAATCCC"` contains no occurrence of the single stop
`TAA` of table `1`, yet its window `AAT` — the *reversal* of `TAA` — is
matched by reverse-sense detection, which removes table `1` from frame
`-3`: `(1, -3)` is not among the surviving combinations. -/
theorem c8_no_stop_survival_counterexample :
    (∀ i < 9, upper (sub3 ("CCCAATCCC".toList) i) ≠ upper ("TAA".toList))
    ∧ ((1, -3) : Nat × Int) ∉
        detect_reading_combinations [(1, [("TAA".toList)])] 0 ("CCCAATCCC".toList) := by
  refine ⟨by decide, by decide⟩

/-- C8, amended.  If a sequence contains (case-insensitively) neither a stop
codon of table `T` nor the character-reversal of one, then unknown-code
detection keeps `T` in the surviving set of every one of the six frames. -/
theorem c8_no_stop_survival_amended (tables : TableMap) (T : Nat)
    (tstops : List (List Char)) (s : List Char)
    (hmem : (T, tstops) ∈ tables)
    (huniq : ∀ p ∈ tables, p.1 = T → p.2 = tstops)
    (hclean : ∀ i < s.length, ∀ c ∈ tstops,
      upper (sub3 s i) ≠ upper c ∧ upper (sub3 s i) ≠ upper c.reverse) :
    ∀ f ∈ sixFramesDict, (T, f) ∈ detect_reading_combinations tables 0 s := by
  intro f hf
  have hTnotin : ∀ (c : List Char) (fr : Int),
      (c, fr) ∈ detected s (STOP_CODONS_SET tables) → T ∉ tablesOf tables c := by
    intro c fr hdet hT
    simp only [tablesOf, List.mem_filterMap] at hT
    obtain ⟨q, hq, hqe⟩ := hT
    by_cases hqc : c ∈ q.2
    · rw [if_pos hqc, Option.some.injEq] at hqe
      have hstops : c ∈ tstops := huniq q hq hqe ▸ hqc
      rcases List.mem_append.mp hdet with hfwd | hrev
      · obtain ⟨i, hilt, hi⟩ := mem_detect_stop_codons hfwd
        exact (hclean i hilt c hstops).1 (hi ▸ rfl)
      · obtain ⟨i, hilt, hi⟩ := mem_detect_reverse_stop_codons hrev
        exact (hclean i hilt c hstops).2 (by rw [hi, List.reverse_reverse])
    · rw [if_neg hqc] at hqe
      exact absurd hqe (by simp)
  have hallowed : T ∈ allowed_translations tables
      (detected s (STOP_CODONS_SET tables)) f := by
    apply List.mem_filter.mpr
    refine ⟨List.mem_map.mpr ⟨(T, tstops), hmem, rfl⟩, ?_⟩
    rw [Bool.not_eq_true', List.any_eq_false]
    intro p hp
    by_cases hfr : p.2 = f
    · have hnot : T ∉ tablesOf tables p.1 := hTnotin p.1 p.2 (by simpa using hp)
      simp [hnot]
    · simp [hfr]
  have hrw : detect_reading_combinations tables 0 s
      = sixFramesDict.flatMap (fun f => (allowed_translations tables
          (detected s (STOP_CODONS_SET tables)) f).map (fun t => (t, f))) := by
    simp [detect_reading_combinations]
  rw [hrw]
  exact List.mem_flatMap.mpr ⟨f, hf, List.mem_map.mpr ⟨T, hallowed, rfl⟩⟩

/-- C8, witness for the amended theorem: `"CCCGGGCCC"` contains neither
`TAA` nor its reversal `AAT`, so table `1` survives in frame `-3` (and the
hypotheses hold). -/
theorem c8_no_stop_survival_witness :
    (((1 : Nat), [("TAA".toList)]) ∈ ([((1 : Nat), [("TAA".toList)])] : TableMap))
    ∧ ((1, -3) : Nat × Int) ∈
        detect_reading_combinations [(1, [("TAA".toList)])] 0 ("CCCGGGCCC".toList) :=
  ⟨List.mem_singleton.mpr rfl,
    c8_no_stop_survival_amended [(1, [("TAA".toList)])] 1 [("TAA".toList)]
      ("CCCGGGCCC".toList) (List.mem_singleton.mpr rfl)
      (fun p hp _ => by
        simp only [List.mem_singleton] at hp
        rw [hp])
      (by decide) (-3) (by decide)⟩

end Concat

namespace Concat

/-- Resolution of one Python slice bound for a positive-step slice:
a negative bound counts from the end and is clamped at `0`; a nonnegative
bound is clamped at the length. -/
def pySliceBound (n : Nat) (b : Int) : Nat :=
  if b < 0 then (max (b + n) 0).toNat else min b.toNat n

/-- `seq[a:b]` for a positive-step Python slice. -/
def pySlice (s : List Char) (a b : Int) : List Char :=
  (s.drop (pySliceBound s.length a)).take (pySliceBound s.length b - pySliceBound s.length a)

/-- `codons.last_codon_slice`: the `(start, stop)` bounds of the last codon
of `seq` under `reading_frame` (negated-and-shifted for negative frames),
or `none` when the sequence is too short.  `read_offset` is
`abs(reading_frame) - 1`, which is `-1` in Python for frame `0`, hence the
computation is carried out in `Int`. -/
def last_codon_slice (seq : List Char) (reading_frame : Int) : Option (Int × Int) :=
  let read_offset : Int := (reading_frame.natAbs : Int) - 1
  if (seq.length : Int) < read_offset + 3 then none
  else
    let leftover := ((seq.length : Int) - read_offset).emod 3
    let stop := (seq.length : Int) - leftover
    let start := stop - 3
    if reading_frame < 0 then some (-start - 1, -stop - 1)
    else some (start, stop)

/-- `codons.last_codon`: the last codon of `seq` according to
`reading_frame` (the slice applied to the sequence). -/
def last_codon (seq : List Char) (reading_frame : Int) : Option (List Char) :=
  (last_codon_slice seq reading_frame).map (fun p => pySlice seq p.1 p.2)

/-- `codons.filter_by_last_codons`: keep a combination `(gc, frame)` only if
the last codon of every sequence of the column is among `gc`'s stop codons
(a sequence with no last codon, `None`, removes the combination). -/
def filter_by_last_codons (tables : TableMap) (col : List (List Char))
    (combos : List (Nat × Int)) : List (Nat × Int) :=
  combos.filter (fun p => col.all (fun seq =>
    match last_codon seq p.2 with
    | some c => decide (c ∈ stopsOf tables p.1)
    | none => false))

/-- `codons.column_reading_combinations`: intersect the per-sequence
combination sets over the sequences of the column.  Python asserts the
column is nonempty; the `[]` case is unreachable from
`final_column_reading_frame`, which checks emptiness first. -/
def column_reading_combinations (tables : TableMap) (gcId : Nat)
    (col : List (List Char)) : List (Nat × Int) :=
  match col with
  | [] => []
  | s :: rest => rest.foldl
      (fun acc seq =>
        acc.filter (fun p => decide (p ∈ detect_reading_combinations tables gcId seq)))
      (detect_reading_combinations tables gcId s)

/-- `codons.extract_frames`: the set of frames of the surviving
combinations. -/
def extract_frames (combos : List (Nat × Int)) : List Int :=
  (combos.map Prod.snd).dedup

/-- The exceptions raised by `final_column_reading_frame`
(`NoReadingFrames`, `BadReadingFrame`, `AmbiguousReadingFrame`), each
carrying the gene name. -/
inductive FrameError where
  | noFrames (gene : String)
  | badFrame (gene : String) (frame : Int)
  | ambiguous (gene : String) (frames : List Int)
  deriving DecidableEq

deriving instance DecidableEq for Except

/-- `codons.final_column_reading_frame`: per-gene reading-frame resolution
(the raised exception embedded as `Except.error`). -/
def final_column_reading_frame (tables : TableMap) (name : String)
    (col : List (List Char)) (gcId : Nat) (reading_frame : Int) :
    Except FrameError Int :=
  if col = [] then .error (.ambiguous name [])
  else
    let combos := column_reading_combinations tables gcId col
    let frames := extract_frames combos
    if frames = [] then .error (.noFrames name)
    else if reading_frame = 0 then
      match frames with
      | [f] => .ok f
      | _ =>
        let combos2 := filter_by_last_codons tables col combos
        match extract_frames combos2 with
        | [] => .error (.noFrames name)
        | [f] => .ok f
        | fs => .error (.ambiguous name fs)
    else if reading_frame ∈ frames then .ok reading_frame
    else .error (.badFrame name reading_frame)

/-- C4, counterexample.  The claim states that when a non-zero reading
frame is supplied, either that frame is returned or `BadReadingFrame` is
raised.  On the single-sequence column `"TAACTAACTAAAATCAATCAAT"` with a
table whose single stop is `TAA`, every one of the six frames has exactly
one distinct detected stop, so no frame survives — and the code raises
`NoReadingFrames` *before* looking at the supplied frame `+1`, not
`BadReadingFrame`. -/
theorem c4_frame_resolution_counterexample :
    final_column_reading_frame [(1, [("TAA".toList)])] ("gene1")
        [("TAACTAACTAAAATCAATCAAT".toList)] 1 1
      = .error (.noFrames ("gene1"))
    ∧ ¬ (final_column_reading_frame [(1, [("TAA".toList)])] ("gene1")
          [("TAACTAACTAAAATCAATCAAT".toList)] 1 1 = .ok 1
        ∨ final_column_reading_frame [(1, [("TAA".toList)])] ("gene1")
            [("TAACTAACTAAAATCAATCAAT".toList)] 1 1
          = .error (.badFrame ("gene1") 1)) := by
  refine ⟨by decide, by decide⟩

/-- C4, amended.  The error taxonomy of `final_column_reading_frame`:
an empty column raises `AmbiguousReadingFrame` with the empty candidate
set; a nonempty column with no surviving frame raises `NoReadingFrames`
regardless of whether a frame was supplied; when frames survive and a
non-zero frame was supplied, it is returned if among the survivors and
`BadReadingFrame` is raised otherwise; with no supplied frame, a single
survivor is returned directly, and with several survivors the last-codon
disambiguation decides: exactly one remaining frame is returned, none
remaining raises `NoReadingFrames`, several remaining raise
`AmbiguousReadingFrame` with the candidate set. -/
theorem c4_frame_resolution_amended (tables : TableMap) (name : String)
    (col : List (List Char)) (gcId : Nat) (rf : Int) :
    (col = [] → final_column_reading_frame tables name col gcId rf
        = .error (.ambiguous name []))
    ∧ (col ≠ [] →
        extract_frames (column_reading_combinations tables gcId col) = [] →
        final_column_reading_frame tables name col gcId rf = .error (.noFrames name))
    ∧ (col ≠ [] →
        extract_frames (column_reading_combinations tables gcId col) ≠ [] → rf ≠ 0 →
        (rf ∈ extract_frames (column_reading_combinations tables gcId col) →
          final_column_reading_frame tables name col gcId rf = .ok rf)
        ∧ (rf ∉ extract_frames (column_reading_combinations tables gcId col) →
          final_column_reading_frame tables name col gcId rf
            = .error (.badFrame name rf)))
    ∧ (col ≠ [] → rf = 0 →
        ∀ f, extract_frames (column_reading_combinations tables gcId col) = [f] →
          final_column_reading_frame tables name col gcId rf = .ok f)
    ∧ (col ≠ [] → rf = 0 →
        2 ≤ (extract_frames (column_reading_combinations tables gcId col)).length →
        ((extract_frames (filter_by_last_codons tables col
            (column_reading_combinations tables gcId col)) = [] →
          final_column_reading_frame tables name col gcId rf = .error (.noFrames name))
        ∧ (∀ f, extract_frames (filter_by_last_codons tables col
            (column_reading_combinations tables gcId col)) = [f] →
          final_column_reading_frame tables name col gcId rf = .ok f)
        ∧ (2 ≤ (extract_frames (filter_by_last_codons tables col
            (column_reading_combinations tables gcId col))).length →
          final_column_reading_frame tables name col gcId rf
            = .error (.ambiguous name (extract_frames (filter_by_last_codons tables col
                (column_reading_combinations tables gcId col))))))) := by
  refine ⟨?_, ?_, ?_, ?_, ?_⟩
  · intro h
    simp [final_column_reading_frame, h]
  · intro h hf
    simp [final_column_reading_frame, h, hf]
  · intro h hne hrf
    constructor
    · intro hmem
      simp [final_column_reading_frame, h, hne, hrf, hmem]
    · intro hmem
      simp [final_column_reading_frame, h, hne, hrf, hmem]
  · intro h hrf f hfr
    simp [final_column_reading_frame, h, hrf, hfr]
  · intro h hrf hlen
    rcases hfr : extract_frames (column_reading_combinations tables gcId col) with
      _ | ⟨a, _ | ⟨b, t⟩⟩
    · rw [hfr] at hlen
      exact absurd hlen (by simp)
    · rw [hfr] at hlen
      exact absurd hlen (by simp)
    refine ⟨?_, ?_, ?_⟩
    · intro h2
      simp [final_column_reading_frame, h, hrf, hfr, h2]
    · intro f h2
      simp [final_column_reading_frame, h, hrf, hfr, h2]
    · intro h2
      rcases hfr2 : extract_frames (filter_by_last_codons tables col
          (column_reading_combinations tables gcId col)) with _ | ⟨a2, _ | ⟨b2, t2⟩⟩
      · rw [hfr2] at h2
        exact absurd h2 (by simp)
      · rw [hfr2] at h2
        exact absurd h2 (by simp)
      simp [final_column_reading_frame, h, hrf, hfr, hfr2]

/-- C4, witness for the amended theorem: on the single-sequence column
`"CCC"` with table `1` (stops `{TAA}`) nothing is detected, all six frames
survive, and the supplied frame `+1` is returned. -/
theorem c4_frame_resolution_witness :
    ([("CCC".toList)] ≠ ([] : List (List Char)))
    ∧ (1 : Int) ∈ extract_frames
        (column_reading_combinations [(1, [("TAA".toList)])] 1 [("CCC".toList)])
    ∧ final_column_reading_frame [(1, [("TAA".toList)])] ("g") [("CCC".toList)] 1 1
      = .ok 1 :=
  ⟨by decide, by decide,
    ((c4_frame_resolution_amended [(1, [("TAA".toList)])] ("g") [("CCC".toList)] 1
        1).2.2.1 (by decide) (by decide) (by decide)).1 (by decide)⟩

end Concat

namespace Concat

/-- `model.GeneSeries`: one gene's per-specimen sequences (taxon key ↦
sequence string, in row order) together with its metadata.  Field names
follow the source (`codon_names` are the three codon-position label
templates). -/
structure GeneSeries where
  name : String
  series : List (String × String)
  genetic_code : Nat
  reading_frame : Int
  codon_names : String × String × String
  missing : String
  gap : String
  deriving DecidableEq

/-- The `GeneSeries.defaults` codon labels `('**_1st', '**_2nd', '**_3rd')`. -/
def codonDefaults : String × String × String :=
  (("**_1st"), ("**_2nd"), ("**_3rd"))

/-- The `lengths = {2: 2, 3: 1}` class attribute of `OpPadReadingFrames`
(`none` embeds the `KeyError` on any other magnitude). -/
def padLengths (rf : Nat) : Option Nat :=
  if rf = 2 then some 2 else if rf = 3 then some 1 else none

/-- The padding character chosen by `OpPadReadingFrames` when its `padding`
parameter is left at its default `""`: `'?'` if it occurs in the gene's
`missing` set, otherwise the first `missing` character (`none` embeds the
`IndexError` on an empty `missing`). -/
def paddingChar (missing : String) : Option Char :=
  if '?' ∈ missing.toList then some '?' else missing.toList.head?

/-- `operators.OpPadReadingFrames.call` with the default configuration
(`padding=""`): frames `0`, `+1`, `-1` pass through unchanged; otherwise
`lengths[|frame|]` copies of the padding character are prepended
(`pad_left`, positive frame) or appended (`pad_right`, negative frame) to
every sequence and the frame is reset to `sign = 1 - 2*int(frame < 0)`. -/
def opPadReadingFrames (g : GeneSeries) : Except String GeneSeries :=
  if g.reading_frame = 0 ∨ g.reading_frame = 1 ∨ g.reading_frame = -1 then .ok g
  else
    match padLengths g.reading_frame.natAbs with
    | none => .error ("KeyError")
    | some cnt =>
      match paddingChar g.missing with
      | none => .error ("IndexError")
      | some ch =>
        let pad := String.mk (List.replicate cnt ch)
        let padFun : String → String :=
          if 0 < g.reading_frame then (fun s => pad ++ s) else (fun s => s ++ pad)
        .ok { g with
              series := g.series.map (fun kv => (kv.1, padFun kv.2)),
              reading_frame := if g.reading_frame < 0 then -1 else 1 }

/-- C6.  `OpPadReadingFrames` (default configuration) leaves frames `0`,
`+1`, `-1` untouched; for `|frame| ∈ {2, 3}` it pads every sequence with
`3 - (|frame| - 1)` copies of the padding character — `'?'` when present in
the gene's `missing` set, otherwise the first `missing` character —
prepending for positive frames and appending for negative ones, and resets
the frame to `±1` preserving the sign. -/
theorem c6_pad_reading_frames :
    (∀ g : GeneSeries,
      (g.reading_frame = 0 ∨ g.reading_frame = 1 ∨ g.reading_frame = -1) →
      opPadReadingFrames g = .ok g)
    ∧ (∀ g : GeneSeries,
        (g.reading_frame.natAbs = 2 ∨ g.reading_frame.natAbs = 3) →
        g.missing.toList ≠ [] →
        ∃ ch : Char, paddingChar g.missing = some ch
          ∧ ('?' ∈ g.missing.toList → ch = '?')
          ∧ ('?' ∉ g.missing.toList → g.missing.toList.head? = some ch)
          ∧ opPadReadingFrames g = .ok { g with
              series := g.series.map (fun kv => (kv.1,
                if 0 < g.reading_frame then
                  String.mk (List.replicate (3 - (g.reading_frame.natAbs - 1)) ch) ++ kv.2
                else
                  kv.2 ++ String.mk (List.replicate (3 - (g.reading_frame.natAbs - 1)) ch))),
              reading_frame := if g.reading_frame < 0 then -1 else 1 }) := by
  constructor
  · intro g h
    rw [opPadReadingFrames, if_pos h]
  · intro g habs hne
    have hcond : ¬ (g.reading_frame = 0 ∨ g.reading_frame = 1 ∨ g.reading_frame = -1) := by
      rcases habs with h2 | h3 <;> omega
    obtain ⟨ch, hch⟩ : ∃ ch, paddingChar g.missing = some ch := by
      unfold paddingChar
      by_cases hq : '?' ∈ g.missing.toList
      · exact ⟨'?', if_pos hq⟩
      · obtain ⟨c, cs, hcs⟩ := List.exists_cons_of_ne_nil hne
        exact ⟨c, by rw [if_neg hq, hcs]; rfl⟩
    refine ⟨ch, hch, ?_, ?_, ?_⟩
    · intro hq
      unfold paddingChar at hch
      rw [if_pos hq, Option.some.injEq] at hch
      exact hch.symm
    · intro hq
      unfold paddingChar at hch
      rw [if_neg hq] at hch
      exact hch
    · have hcnt : padLengths g.reading_frame.natAbs
          = some (3 - (g.reading_frame.natAbs - 1)) := by
        rcases habs with h2 | h2 <;> rw [h2] <;> rfl
      by_cases hpos : 0 < g.reading_frame
      · have hneg : ¬ g.reading_frame < 0 := by omega
        rw [opPadReadingFrames, if_neg hcond, hcnt, hch]
        simp [hpos, hneg]
      · have hneg : g.reading_frame < 0 := by
          rcases habs with h2 | h2 <;> omega
        rw [opPadReadingFrames, if_neg hcond, hcnt, hch]
        simp [hpos, hneg]

/-- C6, witness: Scenario B.  `gene1` (frame `+1`) is unchanged;
`gene2` (frame `-2`, `missing="n"`) becomes frame `-1` with sequence
`"GCCTAAnn"`; `gene3` (frame `+3`, `missing="Nn?"`) becomes frame `+1` with
sequence `"?TAA"`. -/
theorem c6_pad_reading_frames_witness :
    opPadReadingFrames ⟨("gene1"), [(("seq1"), ("ATCGCCTAA"))], 0, 1, codonDefaults, ("Nn?"), ("-")⟩
      = .ok ⟨("gene1"), [(("seq1"), ("ATCGCCTAA"))], 0, 1, codonDefaults, ("Nn?"), ("-")⟩
    ∧ opPadReadingFrames ⟨("gene2"), [(("seq1"), ("GCCTAA"))], 0, -2, codonDefaults, ("n"), ("-")⟩
      = .ok ⟨("gene2"), [(("seq1"), ("GCCTAAnn"))], 0, -1, codonDefaults, ("n"), ("-")⟩
    ∧ opPadReadingFrames ⟨("gene3"), [(("seq1"), ("TAA"))], 0, 3, codonDefaults, ("Nn?"), ("-")⟩
      = .ok ⟨("gene3"), [(("seq1"), ("?TAA"))], 0, 1, codonDefaults, ("Nn?"), ("-")⟩ :=
  ⟨c6_pad_reading_frames.1
      ⟨("gene1"), [(("seq1"), ("ATCGCCTAA"))], 0, 1, codonDefaults, ("Nn?"), ("-")⟩
      (Or.inr (Or.inl rfl)),
    by decide, by decide⟩

end Concat

namespace Concat

/-- `types.CodonSet`: one codon-position sub-range of a charset. -/
structure CodonSet where
  name : String
  position : Int
  position_end : Int
  deriving DecidableEq

/-- `types.Charset`: a contiguous column range of the concatenated
alignment attributed to one gene. -/
structure Charset where
  name : String
  position : Int
  length : Int
  frame : Int
  codons : String × String × String
  deriving DecidableEq

/-- `Charset.position_end = position + length - 1`. -/
def Charset.position_end (c : Charset) : Int := c.position + c.length - 1

/-- `collections.deque.rotate(n)`: right rotation by `n` (negative `n`
rotates left). -/
def rotateRight {α : Type} (l : List α) (n : Int) : List α :=
  if l.length = 0 then l
  else
    let k := (n.emod l.length).toNat
    l.drop (l.length - k) ++ l.take (l.length - k)

/-- `re.sub(r'\*\*', name, label)` on the character list: replace each
non-overlapping occurrence of `**`, left to right, by the gene name. -/
def replaceStars (name : List Char) : List Char → List Char
  | [] => []
  | '*' :: '*' :: cs => name ++ replaceStars name cs
  | c :: cs => c :: replaceStars name cs

/-- `re.sub(r'\*\*', name, label)`: substitute the gene name into a codon
label template. -/
def substLabel (name label : String) : String :=
  String.mk (replaceStars name.toList label.toList)

/-- The label deque of `Charset.codon_sets` after the substitutions,
the reversal-and-rotation for negative frames (`offset = length % 3`),
and the final `rotate(frame - 1)`. -/
def Charset.rotatedLabels (c : Charset) : List String :=
  let base := [substLabel c.name c.codons.1, substLabel c.name c.codons.2.1,
    substLabel c.name c.codons.2.2]
  if c.frame < 0 then
    rotateRight (rotateRight base.reverse (c.length.emod 3)) (-c.frame - 1)
  else
    rotateRight base (c.frame - 1)

/-- `types.Charset.codon_sets`: enumerate the rotated labels, giving each
the start `position + offset` and the common end `position_end`. -/
def Charset.codon_sets (c : Charset) : List CodonSet :=
  c.rotatedLabels.enum.map (fun p => CodonSet.mk p.2 (c.position + (p.1 : Int)) c.position_end)

theorem rotateRight_perm {α : Type} (l : List α) (n : Int) :
    (rotateRight l n).Perm l := by
  unfold rotateRight
  split
  · exact List.Perm.refl l
  · exact (List.perm_append_comm).trans
      (by rw [List.take_append_drop])

/-- C10.  For every charset of length at least one, `codon_sets` returns
exactly three entries, with start positions `position`, `position + 1`,
`position + 2` in that order, all sharing the end `position_end`; the
three names are a permutation of the substituted labels (only their
assignment to the offsets depends on the frame and, for negative frames,
on `length % 3`). -/
theorem c10_codon_sets (c : Charset) (_hlen : 1 ≤ c.length) :
    ∃ n1 n2 n3 : String,
      c.codon_sets =
        [⟨n1, c.position, c.position_end⟩,
         ⟨n2, c.position + 1, c.position_end⟩,
         ⟨n3, c.position + 2, c.position_end⟩]
      ∧ [n1, n2, n3].Perm
          [substLabel c.name c.codons.1, substLabel c.name c.codons.2.1,
           substLabel c.name c.codons.2.2] := by
  have hperm : c.rotatedLabels.Perm
      [substLabel c.name c.codons.1, substLabel c.name c.codons.2.1,
       substLabel c.name c.codons.2.2] := by
    unfold Charset.rotatedLabels
    split
    · exact (rotateRight_perm _ _).trans
        ((rotateRight_perm _ _).trans (List.reverse_perm _))
    · exact rotateRight_perm _ _
  have hlen3 : c.rotatedLabels.length = 3 := by
    rw [hperm.length_eq]
    rfl
  obtain ⟨a, b, c3, habc⟩ := List.length_eq_three.mp hlen3
  refine ⟨a, b, c3, ?_, habc ▸ hperm⟩
  rw [Charset.codon_sets, habc]
  simp [List.enum]

/-- C10, witness: the Scenario C charset `("gene2", 10, 6, -2)` with the
default labels expands into three codon sets at positions 10, 11, 12, all
ending at 15. -/
theorem c10_codon_sets_witness :
    (1 : Int) ≤ (Charset.mk ("gene2") 10 6 (-2) codonDefaults).length
    ∧ ∃ n1 n2 n3 : String,
        (Charset.mk ("gene2") 10 6 (-2) codonDefaults).codon_sets =
          [⟨n1, 10, 15⟩, ⟨n2, 11, 15⟩, ⟨n3, 12, 15⟩]
        ∧ [n1, n2, n3].Perm [("gene2_1st"), ("gene2_2nd"), ("gene2_3rd")] := by
  refine ⟨by decide, ?_⟩
  obtain ⟨n1, n2, n3, heq, hpm⟩ :=
    c10_codon_sets (Charset.mk ("gene2") 10 6 (-2) codonDefaults) (by decide)
  refine ⟨n1, n2, n3, ?_, ?_⟩
  · exact heq
  · exact hpm

end Concat

namespace Concat

/-- `utils.has_uniform_length`: maximum and minimum sequence length agree.
On an empty column both are `NaN` and `NaN == NaN` is false. -/
def has_uniform_length (series : List (String × String)) : Bool :=
  match series with
  | [] => false
  | kv :: rest => rest.all (fun p => p.2.length == kv.2.length)

/-- One `OpExtractCharsets.call`: assert uniform sequence lengths, record
`Charset(name, cursor, length, reading_frame, codon_names)` with the first
sequence's length (`len(gene.series.iat[0])`), advance the cursor.  The
failed `assert` is embedded as an error; the gene itself passes through
unchanged (the state carries the charsets and the cursor). -/
def opExtractCharsetsStep (st : List Charset × Int) (g : GeneSeries) :
    Except String (List Charset × Int) :=
  if has_uniform_length g.series then
    match g.series with
    | [] => .error ("IndexError")
    | kv :: _ =>
      .ok (st.1 ++ [⟨g.name, st.2, (kv.2.length : Int), g.reading_frame, g.codon_names⟩],
        st.2 + (kv.2.length : Int))
  else .error ("AssertionError")

/-- `OpExtractCharsets` over a whole stream, starting from `cursor = 1` and
no recorded charsets; the output stream is the input stream unchanged. -/
def opExtractCharsets (genes : List GeneSeries) :
    Except String (List Charset × List GeneSeries) := do
  let st ← genes.foldlM opExtractCharsetsStep ([], 1)
  return (st.1, genes)

/-- The (uniform) sequence length of a gene, as read by the operator. -/
def lenOf (g : GeneSeries) : Int :=
  ((g.series.head?.map (fun kv => (kv.2.length : Int))).getD 0)

/-- The claim's description of the extractor: a running 1-based cursor;
for each gene in arrival order record
`Charset(name, cursor, length, frame, labels)` and advance the cursor by
the gene's length. -/
def charsetsSpec (cursor : Int) : List GeneSeries → List Charset
  | [] => []
  | g :: rest =>
    ⟨g.name, cursor, lenOf g, g.reading_frame, g.codon_names⟩
      :: charsetsSpec (cursor + lenOf g) rest

/-- Consecutive charsets tile the alignment from a given cursor: each starts
where demanded and the next starts at its `position_end + 1`. -/
def tiles : Int → List Charset → Prop
  | _, [] => True
  | p, c :: rest => c.position = p ∧ tiles (c.position_end + 1) rest

theorem extract_fold (genes : List GeneSeries) :
    ∀ (acc : List Charset) (cursor : Int),
    (∀ g ∈ genes, has_uniform_length g.series = true) →
    genes.foldlM opExtractCharsetsStep (acc, cursor)
      = .ok (acc ++ charsetsSpec cursor genes, cursor + (genes.map lenOf).sum) := by
  induction genes with
  | nil =>
    intro acc cursor _
    simp only [List.foldlM_nil, charsetsSpec, List.append_nil, List.map_nil,
      List.sum_nil, add_zero]
    rfl
  | cons g rest ih =>
    intro acc cursor h
    have hg : has_uniform_length g.series = true := h g (List.mem_cons_self g rest)
    cases hser : g.series with
    | nil =>
      rw [hser] at hg
      simp [has_uniform_length] at hg
    | cons kv tl =>
      have hstep : opExtractCharsetsStep (acc, cursor) g
          = .ok (acc ++ [⟨g.name, cursor, lenOf g, g.reading_frame, g.codon_names⟩],
            cursor + lenOf g) := by
        rw [opExtractCharsetsStep, if_pos hg, hser]
        simp [lenOf, hser]
      rw [List.foldlM_cons, hstep]
      have hbind : ∀ (b : List Charset × Int),
          ((Except.ok b : Except String (List Charset × Int)) >>= fun b =>
            rest.foldlM opExtractCharsetsStep b)
          = rest.foldlM opExtractCharsetsStep b := fun b => rfl
      rw [hbind]
      rw [ih _ _ (fun g hgm => h g (List.mem_cons_of_mem _ hgm))]
      simp [charsetsSpec, add_assoc]

theorem tiles_charsetsSpec (genes : List GeneSeries) :
    ∀ cursor : Int, tiles cursor (charsetsSpec cursor genes) := by
  induction genes with
  | nil => intro cursor; simp [charsetsSpec, tiles]
  | cons g rest ih =>
    intro cursor
    refine ⟨rfl, ?_⟩
    have : (Charset.mk g.name cursor (lenOf g) g.reading_frame g.codon_names).position_end + 1
        = cursor + lenOf g := by
      simp only [Charset.position_end]
      omega
    rw [this]
    exact ih (cursor + lenOf g)

/-- C7.  `ExtractCharsets` holds a running 1-based cursor: for each gene in
arrival order (all sequences of equal length) it records
`Charset(name, cursor, first-sequence length, reading_frame, codon labels)`
and advances the cursor by that length, passing every gene through
unchanged; each charset's `position_end` is `position + length - 1`, and
consecutive charsets tile the alignment from position 1 (the next charset
starts at the previous `position_end + 1`). -/
theorem c7_extract_charsets (genes : List GeneSeries)
    (h : ∀ g ∈ genes, has_uniform_length g.series = true) :
    opExtractCharsets genes = .ok (charsetsSpec 1 genes, genes)
    ∧ tiles 1 (charsetsSpec 1 genes)
    ∧ ∀ c ∈ charsetsSpec 1 genes, c.position_end = c.position + c.length - 1 := by
  refine ⟨?_, tiles_charsetsSpec genes 1, fun c _ => rfl⟩
  rw [opExtractCharsets, extract_fold genes [] 1 h]
  rfl

/-- C7, witness: the Scenario B/C stream `gene1` (frame 0, length 9) and
`gene2` (frame −2, length 6) yields charsets `("gene1", 1, 9)` with
`position_end = 9` and `("gene2", 10, 6)` with `position_end = 15`. -/
theorem c7_extract_charsets_witness :
    (∀ g ∈ [GeneSeries.mk ("gene1") [(("seq1"), ("ATCGCCTAA"))] 0 0 codonDefaults ("Nn?") ("-"),
            GeneSeries.mk ("gene2") [(("seq1"), ("GCCTAA"))] 0 (-2) codonDefaults ("n") ("-")],
      has_uniform_length g.series = true)
    ∧ opExtractCharsets
        [GeneSeries.mk ("gene1") [(("seq1"), ("ATCGCCTAA"))] 0 0 codonDefaults ("Nn?") ("-"),
         GeneSeries.mk ("gene2") [(("seq1"), ("GCCTAA"))] 0 (-2) codonDefaults ("n") ("-")]
      = .ok ([Charset.mk ("gene1") 1 9 0 codonDefaults,
              Charset.mk ("gene2") 10 6 (-2) codonDefaults],
             [GeneSeries.mk ("gene1") [(("seq1"), ("ATCGCCTAA"))] 0 0 codonDefaults ("Nn?") ("-"),
              GeneSeries.mk ("gene2") [(("seq1"), ("GCCTAA"))] 0 (-2) codonDefaults ("n") ("-")])
    ∧ (Charset.mk ("gene1") 1 9 0 codonDefaults).position_end = 9
    ∧ (Charset.mk ("gene2") 10 6 (-2) codonDefaults).position_end = 15 := by
  refine ⟨by decide, ?_, by decide, by decide⟩
  have h := (c7_extract_charsets
    [GeneSeries.mk ("gene1") [(("seq1"), ("ATCGCCTAA"))] 0 0 codonDefaults ("Nn?") ("-"),
     GeneSeries.mk ("gene2") [(("seq1"), ("GCCTAA"))] 0 (-2) codonDefaults ("n") ("-")]
    (by decide)).1
  exact h.trans (by decide)

end Concat

namespace Concat

/-- The metadata `GeneDataFrame._concat` compares between a stored gene and
an incoming duplicate (`genetic_code`, `reading_frame`, `codon_names`,
`missing`, `gap`). -/
structure GeneMeta where
  genetic_code : Nat
  reading_frame : Int
  codon_names : String × String × String
  missing : String
  gap : String
  deriving DecidableEq

def GeneSeries.meta (g : GeneSeries) : GeneMeta :=
  ⟨g.genetic_code, g.reading_frame, g.codon_names, g.missing, g.gap⟩

/-- `model.GeneDataFrame`: the row index, the columns aligned with it
(`none` embeds a pandas `NaN` cell) and the per-gene metadata stored in
`self._genes` on first addition. -/
structure GeneDataFrame where
  index : List String
  cols : List (String × List (Option String))
  metas : List (String × GeneMeta)
  deriving DecidableEq

/-- The exceptions of `GeneDataFrame.add_gene`: the `__getitem__` failure,
the missing-column `KeyError`, and the two `BadGeneJoin` variants of
`_concat`. -/
inductive JoinError where
  | geneNotFound (gene : String)
  | keyError (gene : String)
  | incompatibleMeta (gene : String)
  | duplicateIndex (gene : String)
  deriving DecidableEq

/-- Cell of an association list under pandas alignment: `NaN` both when the
key is absent and when the stored cell is itself `NaN`. -/
def cellLookup (l : List (String × Option String)) (k : String) : Option String :=
  ((l.find? (fun p => p.1 == k)).map Prod.snd).join

/-- An outer `DataFrame.join` of a new column onto the dataframe: rows are
aligned by key, keys unique to the new column extend the index, and missing
cells are `NaN`.  pandas may emit the union index in sorted order; the
embedding keeps the existing rows first and appends the new-only rows,
which is irrelevant to the properties proved about it. -/
def dfOuterJoin (df : GeneDataFrame) (name : String)
    (entries : List (String × Option String)) : GeneDataFrame :=
  let newKeys := (entries.map Prod.fst).filter (fun k => decide (k ∉ df.index))
  let index := df.index ++ newKeys
  ⟨index,
    (df.cols.map (fun col => (col.1, index.map (fun k => cellLookup (df.index.zip col.2) k))))
      ++ [(name, index.map (fun k => cellLookup entries k))],
    df.metas⟩

/-- The `fillna('')` applied by `GeneDataFrame._join` after the outer join
(the `_concat` path performs no such fill). -/
def dfFillEmpty (df : GeneDataFrame) : GeneDataFrame :=
  ⟨df.index,
    df.cols.map (fun col => (col.1, col.2.map (fun cell => some (cell.getD (""))))),
    df.metas⟩

/-- The column of a gene as key/cell pairs (`self.dataframe[name]` with its
index). -/
def GeneDataFrame.colPairs (df : GeneDataFrame) (name : String) :
    List (String × Option String) :=
  df.index.zip ((df.cols.lookup name).getD [])

/-- `GeneDataFrame._concat`: fetch the stored gene (metadata from
`self._genes`, series from the dataframe column over the *full* row index),
require equal metadata, concatenate, reject a duplicated index, then drop
the column and outer-join the concatenation back (without `fillna`). -/
def GeneDataFrame.concat (df : GeneDataFrame) (g : GeneSeries) :
    Except JoinError GeneDataFrame :=
  match df.metas.lookup g.name with
  | none => .error (.geneNotFound g.name)
  | some m =>
    match df.cols.lookup g.name with
    | none => .error (.keyError g.name)
    | some cells =>
      if m = g.meta then
        let both := df.index.zip cells ++ g.series.map (fun kv => (kv.1, some kv.2))
        if (both.map Prod.fst).Nodup then
          .ok (dfOuterJoin ⟨df.index, df.cols.filter (fun c => c.1 != g.name), df.metas⟩
            g.name both)
        else .error (.duplicateIndex g.name)
      else .error (.incompatibleMeta g.name)

/-- `GeneDataFrame.add_gene`: duplicate names go through `_concat`; a new
name either seeds an empty dataframe (`self.dataframe.empty`, i.e. size 0)
or is outer-joined and filled with `''`, and its metadata is recorded. -/
def GeneDataFrame.add_gene (df : GeneDataFrame) (g : GeneSeries) :
    Except JoinError GeneDataFrame :=
  if (df.metas.lookup g.name).isSome then df.concat g
  else
    if df.index.isEmpty || df.cols.isEmpty then
      .ok ⟨g.series.map Prod.fst,
        [(g.name, g.series.map (fun kv => some kv.2))],
        df.metas ++ [(g.name, g.meta)]⟩
    else
      let joined := dfFillEmpty (dfOuterJoin df g.name
        (g.series.map (fun kv => (kv.1, some kv.2))))
      .ok ⟨joined.index, joined.cols, df.metas ++ [(g.name, g.meta)]⟩

/-- `GeneDataFrame.from_stream`: fold a stream of genes into a dataframe
(the optional filler pass is not used here). -/
def GeneDataFrame.addAll (df : GeneDataFrame) (gs : List GeneSeries) :
    Except JoinError GeneDataFrame :=
  gs.foldlM GeneDataFrame.add_gene df

/-- C3, counterexample.  The claim states a same-named gene is concatenated
iff its taxon keys are disjoint from the existing same-named gene's keys
and the metadata agree.  Here gene `g` holds key `k1`, an unrelated gene
`h` contributes key `k2` to the shared row index, and a second `g` with the
*disjoint* key `k2` and identical metadata is nevertheless rejected with
the duplicate-index `BadGeneJoin`, because `_concat` reads the existing
column over the full dataframe index (which already contains `k2`). -/
theorem c3_concat_counterexample :
    (GeneSeries.mk ("g") [(("k1"), ("A"))] 0 0 codonDefaults ("N") ("-")).meta
      = (GeneSeries.mk ("g") [(("k2"), ("G"))] 0 0 codonDefaults ("N") ("-")).meta
    ∧ (∀ k ∈ (GeneSeries.mk ("g") [(("k2"), ("G"))] 0 0 codonDefaults ("N") ("-")).series.map
          Prod.fst,
        k ∉ (GeneSeries.mk ("g") [(("k1"), ("A"))] 0 0 codonDefaults ("N") ("-")).series.map
          Prod.fst)
    ∧ GeneDataFrame.addAll ⟨[], [], []⟩
        [GeneSeries.mk ("g") [(("k1"), ("A"))] 0 0 codonDefaults ("N") ("-"),
         GeneSeries.mk ("h") [(("k2"), ("C"))] 0 0 codonDefaults ("N") ("-"),
         GeneSeries.mk ("g") [(("k2"), ("G"))] 0 0 codonDefaults ("N") ("-")]
      = .error (.duplicateIndex ("g")) := by
  refine ⟨by decide, by decide, by decide⟩

end Concat

namespace Concat


theorem cellLookup_cons_ne {k k2 : String} {c : Option String}
    {rest : List (String × Option String)} (h : k2 ≠ k) :
    cellLookup ((k, c) :: rest) k2 = cellLookup rest k2 := by
  unfold cellLookup
  rw [List.find?_cons_of_neg]
  simp only [beq_iff_eq]
  exact fun he => h he.symm

theorem cellLookup_append_of_ne {l1 l2 : List (String × Option String)}
    {k : String} (h : ∀ p ∈ l1, p.1 ≠ k) :
    cellLookup (l1 ++ l2) k = cellLookup l2 k := by
  induction l1 with
  | nil => rfl
  | cons p t ih =>
    rcases p with ⟨pk, pc⟩
    rw [List.cons_append,
      cellLookup_cons_ne (Ne.symm (h (pk, pc) (List.mem_cons_self _ _)))]
    exact ih (fun q hq => h q (List.mem_cons_of_mem _ hq))

theorem map_cellLookup_zip (keys : List String) :
    ∀ (cells : List (Option String)) (rest : List (String × Option String)),
    cells.length = keys.length → keys.Nodup →
    keys.map (fun k => (k, cellLookup (keys.zip cells ++ rest) k)) = keys.zip cells := by
  induction keys with
  | nil =>
    intro cells rest _ _
    simp
  | cons k ks ih =>
    intro cells rest hlen hnd
    cases cells with
    | nil => simp at hlen
    | cons c cs =>
      rw [List.zip_cons_cons, List.cons_append, List.map_cons]
      have hhead : cellLookup ((k, c) :: (ks.zip cs ++ rest)) k = c := by
        unfold cellLookup
        rw [List.find?_cons_of_pos]
        · rfl
        · simp
      rw [hhead]
      congr 1
      have hstep : ks.map (fun k2 => (k2, cellLookup ((k, c) :: (ks.zip cs ++ rest)) k2))
          = ks.map (fun k2 => (k2, cellLookup (ks.zip cs ++ rest) k2)) := by
        apply List.map_congr_left
        intro k2 hk2
        rw [cellLookup_cons_ne]
        intro he
        exact (List.nodup_cons.mp hnd).1 (he ▸ hk2)
      rw [hstep]
      exact ih cs rest (by simpa using hlen) (List.nodup_cons.mp hnd).2

theorem map_cellLookup_self (pairs : List (String × Option String))
    (hnd : (pairs.map Prod.fst).Nodup) :
    pairs.map (fun p => (p.1, cellLookup pairs p.1)) = pairs := by
  induction pairs with
  | nil => rfl
  | cons p t ih =>
    rcases p with ⟨pk, pc⟩
    rw [List.map_cons]
    have hhead : cellLookup ((pk, pc) :: t) pk = pc := by
      unfold cellLookup
      rw [List.find?_cons_of_pos]
      · rfl
      · simp
    rw [hhead]
    congr 1
    rw [List.map_cons] at hnd
    have hstep : t.map (fun p => (p.1, cellLookup ((pk, pc) :: t) p.1))
        = t.map (fun p => (p.1, cellLookup t p.1)) := by
      apply List.map_congr_left
      intro q hq
      rw [cellLookup_cons_ne]
      intro he
      exact (List.nodup_cons.mp hnd).1 (List.mem_map.mpr ⟨q, hq, he⟩)
    rw [hstep]
    exact ih (List.nodup_cons.mp hnd).2

theorem lookup_append_of_ne {β : Type} (l1 l2 : List (String × β)) (k : String)
    (h : ∀ p ∈ l1, p.1 ≠ k) : (l1 ++ l2).lookup k = l2.lookup k := by
  induction l1 with
  | nil => rfl
  | cons p t ih =>
    rcases p with ⟨pk, pc⟩
    have hpk : (k == pk) = false := by
      simp only [beq_eq_false_iff_ne, ne_eq]
      exact fun he => (h (pk, pc) (List.mem_cons_self _ _)) he.symm
    rw [List.cons_append, List.lookup, hpk]
    exact ih (fun q hq => h q (List.mem_cons_of_mem _ hq))

theorem zip_map_self {α β : Type} (l : List α) (f : α → β) :
    l.zip (l.map f) = l.map (fun a => (a, f a)) := by
  induction l with
  | nil => rfl
  | cons a t ih => simp [ih]

/-- C3, amended.  Adding a `GeneSeries` whose name is already present
concatenates it into the existing column iff its metadata equal the stored
gene's metadata *and* its taxon keys are disjoint from the dataframe's
entire row index (which contains every key contributed by any gene, not
only the same-named one); otherwise `BadGeneJoin` is raised — incompatible
metadata first, a duplicated index otherwise.  On success the column
becomes the existing cells followed by the new rows, the stored metadata
are unchanged and the index is extended by the new keys. -/
theorem c3_concat_amended (df : GeneDataFrame) (g : GeneSeries) (m : GeneMeta)
    (cells : List (Option String))
    (hmeta : df.metas.lookup g.name = some m)
    (hcol : df.cols.lookup g.name = some cells)
    (hlen : cells.length = df.index.length)
    (hidx : df.index.Nodup)
    (hkeys : (g.series.map Prod.fst).Nodup) :
    (m ≠ g.meta → df.add_gene g = .error (.incompatibleMeta g.name))
    ∧ (m = g.meta → (∃ k ∈ g.series.map Prod.fst, k ∈ df.index) →
        df.add_gene g = .error (.duplicateIndex g.name))
    ∧ (m = g.meta → (∀ k ∈ g.series.map Prod.fst, k ∉ df.index) →
        ∃ df2, df.add_gene g = .ok df2
          ∧ df2.colPairs g.name
            = df.colPairs g.name ++ g.series.map (fun kv => (kv.1, some kv.2))
          ∧ df2.metas = df.metas
          ∧ df2.index = df.index ++ g.series.map Prod.fst) := by
  have hro : df.add_gene g = df.concat g := by
    rw [GeneDataFrame.add_gene, if_pos (by rw [hmeta]; rfl)]
  have hgpfst : (g.series.map (fun kv => ((kv.1, some kv.2) : String × Option String))).map
      Prod.fst = g.series.map Prod.fst := by
    rw [List.map_map]
    rfl
  have hbf : ((df.index.zip cells ++ g.series.map (fun kv => (kv.1, some kv.2))).map
      Prod.fst) = df.index ++ g.series.map Prod.fst := by
    rw [List.map_append, List.map_fst_zip _ _ (le_of_eq hlen.symm), hgpfst]
  refine ⟨?_, ?_, ?_⟩
  · intro hne
    rw [hro]
    simp only [GeneDataFrame.concat, hmeta, hcol]
    rw [if_neg hne]
  · intro heq hover
    rw [hro]
    simp only [GeneDataFrame.concat, hmeta, hcol]
    rw [if_pos heq, if_neg]
    intro hnd
    rw [hbf] at hnd
    obtain ⟨k, hk1, hk2⟩ := hover
    exact (List.nodup_append.mp hnd).2.2 hk2 hk1
  · intro heq hdisj
    have hnd : ((df.index.zip cells ++ g.series.map (fun kv => (kv.1, some kv.2))).map
        Prod.fst).Nodup := by
      rw [hbf, List.nodup_append]
      exact ⟨hidx, hkeys, fun k hk1 hk2 => hdisj k hk2 hk1⟩
    have hok : df.add_gene g = .ok (dfOuterJoin
        ⟨df.index, df.cols.filter (fun c => c.1 != g.name), df.metas⟩ g.name
        (df.index.zip cells ++ g.series.map (fun kv => (kv.1, some kv.2)))) := by
      rw [hro]
      simp only [GeneDataFrame.concat, hmeta, hcol]
      rw [if_pos heq, if_pos hnd]
    have hnewKeys : (((df.index.zip cells
          ++ g.series.map (fun kv => (kv.1, some kv.2))).map Prod.fst).filter
        (fun k => decide (k ∉ df.index)))
        = g.series.map Prod.fst := by
      rw [hbf, List.filter_append]
      have hleft : df.index.filter (fun k => decide (k ∉ df.index)) = [] := by
        apply List.filter_eq_nil_iff.mpr
        intro k hk
        simpa using hk
      rw [hleft, List.nil_append, List.filter_eq_self]
      intro k hk
      simpa using hdisj k hk
    refine ⟨_, hok, ?_, rfl, ?_⟩
    · -- the new column: existing cells followed by the added rows
      simp only [GeneDataFrame.colPairs, dfOuterJoin, hnewKeys]
      rw [lookup_append_of_ne]
      · simp only [List.lookup, beq_self_eq_true, Option.getD_some]
        rw [zip_map_self, List.map_append]
        congr 1
        · rw [hcol, Option.getD_some]
          exact map_cellLookup_zip df.index cells _ hlen hidx
        · have hpt : ∀ k ∈ g.series.map Prod.fst,
              cellLookup (df.index.zip cells
                ++ g.series.map (fun kv => (kv.1, some kv.2))) k
              = cellLookup (g.series.map (fun kv => (kv.1, some kv.2))) k := by
            intro k hk
            apply cellLookup_append_of_ne
            intro q hq he
            have hq1 : q.1 ∈ df.index := by
              have hmm := List.mem_map_of_mem Prod.fst hq
              rwa [List.map_fst_zip _ _ (le_of_eq hlen.symm)] at hmm
            rw [he] at hq1
            exact hdisj k hk hq1
          rw [List.map_congr_left (fun k hk => by rw [hpt k hk])]
          have hknd : ((g.series.map (fun kv =>
              ((kv.1, some kv.2) : String × Option String))).map Prod.fst).Nodup := by
            rw [hgpfst]
            exact hkeys
          have hself := map_cellLookup_self
            (g.series.map (fun kv => (kv.1, some kv.2))) hknd
          calc (g.series.map Prod.fst).map
                (fun k => (k, cellLookup (g.series.map (fun kv => (kv.1, some kv.2))) k))
              = ((g.series.map (fun kv =>
                  ((kv.1, some kv.2) : String × Option String))).map Prod.fst).map
                (fun k => (k, cellLookup (g.series.map (fun kv => (kv.1, some kv.2))) k)) := by
                rw [hgpfst]
            _ = g.series.map (fun kv => (kv.1, some kv.2)) := by
                rw [List.map_map]
                exact hself
      · intro p hp
        obtain ⟨c2, hc2, hc2e⟩ := List.mem_map.mp hp
        have hcname : (c2.1 != g.name) = true := (List.mem_filter.mp hc2).2
        rw [← hc2e]
        simpa using hcname
    · simp only [dfOuterJoin, hnewKeys]

/-- C3, witness for the amended theorem: a dataframe holding gene `g` on
key `k1` accepts a second `g` on the disjoint key `k2` with identical
metadata, concatenating the columns. -/
theorem c3_concat_amended_witness :
    ((GeneDataFrame.mk [("k1")] [(("g"), [some ("A")])]
        [(("g"), GeneMeta.mk 0 0 codonDefaults ("N") ("-"))]).metas.lookup
      (GeneSeries.mk ("g") [(("k2"), ("G"))] 0 0 codonDefaults ("N") ("-")).name
        = some (GeneMeta.mk 0 0 codonDefaults ("N") ("-")))
    ∧ ∃ df2, (GeneDataFrame.mk [("k1")] [(("g"), [some ("A")])]
        [(("g"), GeneMeta.mk 0 0 codonDefaults ("N") ("-"))]).add_gene
          (GeneSeries.mk ("g") [(("k2"), ("G"))] 0 0 codonDefaults ("N") ("-"))
        = .ok df2
      ∧ df2.colPairs (GeneSeries.mk ("g") [(("k2"), ("G"))] 0 0 codonDefaults
          ("N") ("-")).name
        = (GeneDataFrame.mk [("k1")] [(("g"), [some ("A")])]
            [(("g"), GeneMeta.mk 0 0 codonDefaults ("N") ("-"))]).colPairs
          (GeneSeries.mk ("g") [(("k2"), ("G"))] 0 0 codonDefaults ("N") ("-")).name
          ++ (GeneSeries.mk ("g") [(("k2"), ("G"))] 0 0 codonDefaults
              ("N") ("-")).series.map (fun kv => (kv.1, some kv.2))
      ∧ df2.metas = (GeneDataFrame.mk [("k1")] [(("g"), [some ("A")])]
          [(("g"), GeneMeta.mk 0 0 codonDefaults ("N") ("-"))]).metas
      ∧ df2.index = (GeneDataFrame.mk [("k1")] [(("g"), [some ("A")])]
          [(("g"), GeneMeta.mk 0 0 codonDefaults ("N") ("-"))]).index
          ++ (GeneSeries.mk ("g") [(("k2"), ("G"))] 0 0 codonDefaults
              ("N") ("-")).series.map Prod.fst :=
  ⟨by decide,
    (c3_concat_amended
      (GeneDataFrame.mk [("k1")] [(("g"), [some ("A")])]
        [(("g"), GeneMeta.mk 0 0 codonDefaults ("N") ("-"))])
      (GeneSeries.mk ("g") [(("k2"), ("G"))] 0 0 codonDefaults ("N") ("-"))
      (GeneMeta.mk 0 0 codonDefaults ("N") ("-")) [some ("A")]
      (by decide) (by decide) (by decide) (by decide) (by decide)).2.2
      (by decide) (by decide)⟩

end Concat

namespace Concat

/-- The NUL sentinel `"\u0000"` with which `_join_any` tags key-field
names. -/
def sentinel : Char := Char.ofNat 0

/-- `guard`: prefix a key-field name with the sentinel. -/
def guardName (n : String) : String := String.mk (sentinel :: n.toList)

/-- `name.startswith(sentinel)`, the `guarded` test. -/
def isGuarded (n : String) : Bool := n.toList.head? == some sentinel

/-- `removeprefix(name, sentinel)`, the `unguard` step. -/
def unguardName (n : String) : String :=
  if isGuarded n then String.mk n.toList.tail else n

/-- The input of `_join_any` for one gene: its name, the names of its key
fields (`series.index.names`) and its rows (key tuple ↦ sequence). -/
structure KeyedGene where
  name : String
  keyNames : List String
  rows : List (List String × String)
  deriving DecidableEq

/-- A flattened pandas frame: column names, and rows as partial
assignments of values to columns (a column absent from a row is `NaN`). -/
structure Frame where
  cols : List String
  rows : List (List (String × String))
  deriving DecidableEq

/-- The `fold_keys` step for one gene: tag the key names, flatten the key
levels into ordinary row columns (`reset_index`), keeping the sequence
column named after the gene. -/
def flattenGene (g : KeyedGene) : Frame :=
  ⟨(g.keyNames.map guardName) ++ [g.name],
    g.rows.map (fun r => ((g.keyNames.map guardName).zip r.1) ++ [(g.name, r.2)])⟩

/-- `OrderedSet.add`-style insertion: existing keys keep their position,
new keys are appended. -/
def ordInsert (l : List String) (x : String) : List String :=
  if x ∈ l then l else l ++ [x]

/-- `OrderedSet.update`: insert each key in order. -/
def ordUnion (l : List String) (xs : List String) : List String :=
  xs.foldl ordInsert l

/-- The merge key list the fold computes for an incoming gene: `all_keys`
has already been *updated* with the incoming gene's tagged fields (inside
`fold_keys`, before the gene is yielded), and is then intersected
(`OrderedSet.__and__`) with the gene's tagged columns. -/
def mergeKeysAt (prevKeys : List String) (g : KeyedGene) : List String :=
  (ordUnion prevKeys (g.keyNames.map guardName)).filter
    (fun k => ((flattenGene g).cols.filter isGuarded).contains k)

/-- `NaN`-aware cell of a row (`none` both for an absent column). -/
def rowLookup (r : List (String × String)) (k : String) : Option String :=
  (r.find? (fun p => p.1 == k)).map Prod.snd

/-- Two rows agree on every merge-key column (pandas joins `NaN` keys to
`NaN` keys). -/
def rowsMatch (ks : List String) (a b : List (String × String)) : Bool :=
  ks.all (fun k => rowLookup a k == rowLookup b k)

/-- `pd.merge(left, right, how="outer", on=ks)`: a `KeyError` (carrying the
missing label) when some key is absent from either side's columns;
otherwise every left row is paired with every right row matching on all of
`ks`, unmatched left rows are kept, and unmatched right rows are appended. -/
def pdMergeOuter (l r : Frame) (ks : List String) : Except String Frame :=
  match ks.find? (fun k => !(l.cols.contains k && r.cols.contains k)) with
  | some k => .error k
  | none =>
    .ok ⟨l.cols ++ r.cols.filter (fun c => decide (c ∉ l.cols)),
      (l.rows.flatMap (fun lr =>
        let ms := r.rows.filter (fun rr => rowsMatch ks lr rr)
        if ms.isEmpty then [lr]
        else ms.map (fun rr => lr ++ rr.filter (fun p => decide (p.1 ∉ ks)))))
      ++ (r.rows.filter (fun rr => ! l.rows.any (fun lr => rowsMatch ks lr rr)))⟩

/-- Modelled from the spec: `GeneDataFrame.from_gene`, which `_join_any`
calls on the first folded gene but which is absent from `model.py` in the
source tree (only `from_stream` exists there).  Per the spec the running
accumulator is seeded with the first gene's flattened rows, so the
accumulated dataframe is exactly that flattened frame; the gene-metadata
bookkeeping (`gdf.missing`, `gdf.gap`) is not needed for the joined
table. -/
def from_gene (f : Frame) : Frame := f

/-- The result of `_join_any` after the final `set_index`: the restored
(untagged) key names and the merged table. -/
structure JoinResult where
  indexNames : List String
  frame : Frame
  deriving DecidableEq

/-- The merge loop of `_join_any`. -/
def join_any_go (allKeys : List String) (acc : Frame) :
    List KeyedGene → Except String (List String × Frame)
  | [] => .ok (allKeys, acc)
  | g :: rest =>
    match pdMergeOuter acc (flattenGene g) (mergeKeysAt allKeys g) with
    | .error e => .error e
    | .ok acc2 => join_any_go (ordUnion allKeys (g.keyNames.map guardName)) acc2 rest

/-- `operators._join_any`: fold the tagged, flattened genes through outer
merges, then `set_index(list(all_keys))` (a `KeyError` if a key column is
missing) and untag the index names. -/
def join_any (gs : List KeyedGene) : Except String JoinResult :=
  match gs with
  | [] => .error ("StopIteration")
  | g :: rest =>
    match join_any_go (ordUnion [] (g.keyNames.map guardName))
        (from_gene (flattenGene g)) rest with
    | .error e => .error e
    | .ok (allKeys, fr) =>
      match allKeys.find? (fun k => ! fr.cols.contains k) with
      | some k => .error k
      | none => .ok ⟨allKeys.map unguardName, fr⟩

/-- C2.  The claim states that each fold step outer-merges on the
intersection of the *already-known* tagged key fields with the incoming
gene's tagged fields, so that genes with heterogeneous key schemas merge on
the fields both sides have.  In the code, `all_keys` is updated with the
incoming gene's fields *before* the intersection, so the merge key is the
incoming gene's full tagged key set: for `gene1` keyed by `species` and
`gene2` keyed by `species, voucher`, the computed merge key is
`[species, voucher]` (tagged) rather than the claimed `[species]`, and the
outer merge raises a `KeyError` on the accumulator's missing `voucher`
column instead of merging the rows on `species`. -/
theorem c2_join_any_merge_key_eval :
    mergeKeysAt [guardName ("species")]
        (KeyedGene.mk ("gene2") [("species"), ("voucher")]
          [([("speciesA"), ("V1")], ("GT"))])
      = [guardName ("species"), guardName ("voucher")]
    ∧ [guardName ("species")].filter
        (fun k => ((flattenGene (KeyedGene.mk ("gene2") [("species"), ("voucher")]
          [([("speciesA"), ("V1")], ("GT"))])).cols.filter isGuarded).contains k)
      = [guardName ("species")]
    ∧ mergeKeysAt [guardName ("species")]
        (KeyedGene.mk ("gene2") [("species"), ("voucher")]
          [([("speciesA"), ("V1")], ("GT"))])
      ≠ [guardName ("species")]
    ∧ ordUnion [] ((KeyedGene.mk ("gene1") [("species")]
        [([("speciesA")], ("AC"))]).keyNames.map guardName)
      = [guardName ("species")]
    ∧ join_any
        [KeyedGene.mk ("gene1") [("species")] [([("speciesA")], ("AC"))],
         KeyedGene.mk ("gene2") [("species"), ("voucher")]
          [([("speciesA"), ("V1")], ("GT"))]]
      = .error (guardName ("voucher")) := by
  refine ⟨by decide, by decide, by decide, by decide, by decide⟩

end Concat
